import Mathlib

/-!
Verification of the text-normalization core of the ISO 3166-3 scraper
(src/iso3166-3scrapper.py) against its natural-language specification.

The Python functions are shallowly embedded as executable Lean functions
over `List Char` (Python `str` values are sequences of code points, so a
`String`'s `data` list is the faithful counterpart; indices in the Python
code are code-point indices).  A Python value that may be a pandas `NaN`
cell is modelled as `Option String`, with `none` for `NaN`; `pd.isna`
on an actual string is `False`, matching the `some` branch.  Regular
expressions are embedded as deterministic matchers implementing the
leftmost/greedy (or lazy, where the pattern is lazy) semantics of
Python's `re` on the concrete patterns used by the program; character
classes are the ASCII classes `re` uses on this data.
-/

/-- ASCII uppercase letter, the class `[A-Z]`. -/
def isUpperA (c : Char) : Bool := decide (65 ≤ c.toNat) && decide (c.toNat ≤ 90)

/-- ASCII lowercase letter, the class `[a-z]`. -/
def isLowerA (c : Char) : Bool := decide (97 ≤ c.toNat) && decide (c.toNat ≤ 122)

/-- ASCII decimal digit, the class `\d`. -/
def isDigitA (c : Char) : Bool := decide (48 ≤ c.toNat) && decide (c.toNat ≤ 57)

/-- ASCII whitespace, the class `\s` (space, tab, newline, carriage return,
vertical tab, form feed), also what `str.strip()` / `str.split()` use. -/
def isWsA (c : Char) : Bool :=
  c = ' ' || c = '\t' || c = '\n' || c = '\r' || c = '\x0b' || c = '\x0c'

/-- ASCII letter. -/
def isAlphaA (c : Char) : Bool := isUpperA c || isLowerA c

/-- ASCII word character, the class `\w`. -/
def isWordA (c : Char) : Bool := isAlphaA c || isDigitA c || c = '_'

/-- ASCII lowering, modelling `str.lower()` on the data at hand. -/
def toLowerA (c : Char) : Char :=
  if isUpperA c then Char.ofNat (c.toNat + 32) else c

/-- Python `str.strip()`: drop whitespace from both ends. -/
def pyStripL (l : List Char) : List Char :=
  ((l.dropWhile isWsA).reverse.dropWhile isWsA).reverse

/-- Python `str.split()` with no argument: the list of maximal
whitespace-free words (empty words are discarded).  `acc` holds the
current word reversed. -/
def pyWordsAux (acc : List Char) : List Char → List (List Char)
  | [] => if acc = [] then [] else [acc.reverse]
  | c :: cs =>
    if isWsA c then
      if acc = [] then pyWordsAux [] cs else acc.reverse :: pyWordsAux [] cs
    else pyWordsAux (c :: acc) cs

/-- The whitespace normalization `' '.join(name.split()).strip()` used by
`clean_country_name`. -/
def collapseWs (l : List Char) : List Char :=
  pyStripL (List.intercalate [' '] (pyWordsAux [] l))

/-- Python `str.split(',')`: split at commas, keeping empty pieces. -/
def splitCommaAux (acc : List Char) : List Char → List (List Char)
  | [] => [acc.reverse]
  | c :: cs =>
    if c = ',' then acc.reverse :: splitCommaAux [] cs
    else splitCommaAux (c :: acc) cs

def splitComma (l : List Char) : List (List Char) := splitCommaAux [] l

/-- Match of the annotation pattern `\[note \d+\]` at the head of the list;
returns the matched length. -/
def matchNoteAt (l : List Char) : Option Nat :=
  if ("[note ".data).isPrefixOf l then
    let rest := l.drop 6
    let ds := rest.takeWhile isDigitA
    if ds = [] then none
    else
      match rest.drop ds.length with
      | ']' :: _ => some (6 + ds.length + 1)
      | _ => none
  else none

/-- One left-to-right pass of `re.sub(r'\[note \d+\]', '', name)`:
each non-overlapping leftmost occurrence is deleted, scanning resumes
after the deleted occurrence.  Fuel is the length of the list; every
step consumes at least one character, so the fuel never runs out. -/
def removeNotesAux : Nat → List Char → List Char
  | 0, l => l
  | _ + 1, [] => []
  | fuel + 1, c :: cs =>
    match matchNoteAt (c :: cs) with
    | some n => removeNotesAux fuel ((c :: cs).drop n)
    | none => c :: removeNotesAux fuel cs

def removeNotes (l : List Char) : List Char := removeNotesAux l.length l

/-- Decidable check that a list contains an occurrence of `[note N]`. -/
def hasNoteMarker (l : List Char) : Bool :=
  l.tails.any (fun t => (matchNoteAt t).isSome)

/-- The action-phrase list of `clean_country_name`, in source order. -/
def actionPhrases : List (List Char) :=
  ["Merged into ".data, "Name changed to ".data, "Divided into:".data,
   "Divided into: ".data, "Split into ".data]

/-- The `for prefix in prefixes` loop of `clean_country_name`: each listed
phrase is tried once, in order, against the current value of the name, and
removed when the name starts with it. -/
def stripActionPhrases : List (List Char) → List Char → List Char
  | [], l => l
  | p :: ps, l =>
    if p.isPrefixOf l then stripActionPhrases ps (l.drop p.length)
    else stripActionPhrases ps l

/-- Core of `clean_country_name` on an actual string. -/
def cleanCore (l : List Char) : List Char :=
  if l = [] then []
  else collapseWs (stripActionPhrases actionPhrases (removeNotes l))

/-- `clean_country_name`: `none` models a `NaN` cell. -/
def clean_country_name : Option String → String
  | none => ""
  | some s => String.mk (cleanCore s.data)

example : clean_country_name (some "Merged into  Tanzania [note 2]") = "Tanzania" := by decide
example : clean_country_name (some "[note  1]") = "[note 1]" := by decide
example : clean_country_name (some "Merged into Name changed to Zaire") = "Zaire" := by decide

/-- Result of `parse_former_codes`. -/
structure FormerCodes where
  alpha2 : Option String
  alpha3 : Option String
  numeric : Option String
deriving DecidableEq, Repr

/-- Full match of `^[A-Z]{2}$`. -/
def tokenIsAlpha2 (t : List Char) : Bool := decide (t.length = 2) && t.all isUpperA

/-- Full match of `^[A-Z]{3}$`. -/
def tokenIsAlpha3 (t : List Char) : Bool := decide (t.length = 3) && t.all isUpperA

/-- Full match of `^\d{3}$`. -/
def tokenIsNumeric (t : List Char) : Bool := decide (t.length = 3) && t.all isDigitA

/-- Body of the token loop of `parse_former_codes`: the `if`/`elif` chain
assigning a token to its slot, overwriting any earlier assignment. -/
def codeStep (r : FormerCodes) (t : List Char) : FormerCodes :=
  if tokenIsAlpha2 t then { r with alpha2 := some (String.mk t) }
  else if tokenIsAlpha3 t then { r with alpha3 := some (String.mk t) }
  else if tokenIsNumeric t then { r with numeric := some (String.mk t) }
  else r

/-- The comma-separated, individually stripped tokens of the stripped
input string, as computed by `parse_former_codes`. -/
def codeTokens (s : String) : List (List Char) :=
  (splitComma (pyStripL s.data)).map pyStripL

/-- `parse_former_codes`: `none` models a `NaN` cell. -/
def parse_former_codes : Option String → FormerCodes
  | none => ⟨none, none, none⟩
  | some s =>
    if s = "" then ⟨none, none, none⟩
    else (codeTokens s).foldl codeStep ⟨none, none, none⟩

example : parse_former_codes (some "US, USA, 840") = ⟨some "US", some "USA", some "840"⟩ := by decide
example : parse_former_codes (some "USA, US") = ⟨some "US", some "USA", none⟩ := by decide
example : parse_former_codes (some "US, VD, 840") = ⟨some "VD", none, some "840"⟩ := by decide

/-- Result of `parse_validity_period`.  (`end` is a Lean keyword, hence
the field name `end_` for the Python dictionary key `"end"`.) -/
structure Validity where
  start : Option Nat
  end_ : Option Nat
deriving DecidableEq, Repr

/-- Numeric value of a digit string, as `int()` computes it. -/
def digitsToNat (l : List Char) : Nat :=
  l.foldl (fun n c => 10 * n + (c.toNat - 48)) 0

/-- Match of `(\d{4})[–\-](\d{4})` anchored at the head of the list:
four digits, an en-dash or hyphen, four digits. -/
def matchPeriodAt (l : List Char) : Option (Nat × Nat) :=
  match l with
  | a :: b :: c :: d :: e :: w :: x :: y :: z :: _ =>
    if isDigitA a && isDigitA b && isDigitA c && isDigitA d
        && (e = '–' || e = '-')
        && isDigitA w && isDigitA x && isDigitA y && isDigitA z then
      some (digitsToNat [a, b, c, d], digitsToNat [w, x, y, z])
    else none
  | _ => none

/-- `re.search` of the period pattern: try each start position from the
left, return the first (leftmost) match. -/
def searchPeriod : List Char → Option (Nat × Nat)
  | [] => none
  | c :: cs =>
    match matchPeriodAt (c :: cs) with
    | some p => some p
    | none => searchPeriod cs

/-- `parse_validity_period`: `none` models a `NaN` cell. -/
def parse_validity_period : Option String → Validity
  | none => ⟨none, none⟩
  | some s =>
    if s = "" then ⟨none, none⟩
    else
      match searchPeriod (pyStripL s.data) with
      | some (a, b) => ⟨some a, some b⟩
      | none => ⟨none, none⟩

example : parse_validity_period (some "1965–1974") = ⟨some 1965, some 1974⟩ := by decide
example : parse_validity_period (some "no date") = ⟨none, none⟩ := by decide
example : parse_validity_period (some "1974–1965") = ⟨some 1974, some 1965⟩ := by decide
example : parse_validity_period (some "12345-6789 1965-1974") = ⟨some 2345, some 6789⟩ := by decide

/-- Python substring containment `needle in hay`: some tail of `hay`
starts with `needle`. -/
def pyContains (hay needle : List Char) : Bool :=
  hay.tails.any (fun t => needle.isPrefixOf t)

/-- `determine_transition_type`: `none` models a `NaN` cell. -/
def determine_transition_type : Option String → String
  | none => "other"
  | some s =>
    if s = "" then "other"
    else
      let low := s.data.map toLowerA
      if pyContains low ("merged into".data) then "merged"
      else if pyContains low ("name changed".data) then "name_changed"
      else if pyContains low ("divided into".data)
          || pyContains low ("split into".data) then "divided"
      else "other"

example : determine_transition_type (some "Merged into Tanzania") = "merged" := by decide
example : determine_transition_type (some "Republic renamed") = "other" := by decide

/-- One match of the code-triplet pattern
`\(([A-Z]{2}),\s*([A-Z]{2,3}),\s*(\d{3,4})\)`, with its span in
code-point indices and its three groups, as produced by `re.finditer`. -/
structure CodeMatch where
  mstart : Nat
  mend : Nat
  g1 : List Char
  g2 : List Char
  g3 : List Char
deriving DecidableEq, Repr

/-- The `[A-Z]{2,3},` portion of the triplet pattern, anchored at the
head: greedily three uppercase letters when the following character is
the required comma, else two; returns the group and the list after the
comma.  (When three uppercase letters are present but not followed by a
comma, backtracking to two letters also fails, because the third letter
is then not a comma.) -/
def matchLettersComma (r : List Char) : Option (List Char × List Char) :=
  match r with
  | c :: d :: r1 =>
    if isUpperA c && isUpperA d then
      match r1 with
      | e :: r2 =>
        if isUpperA e then
          match r2 with
          | ',' :: r3 => some ([c, d, e], r3)
          | _ => none
        else if e = ',' then some ([c, d], r2)
        else none
      | [] => none
    else none
  | _ => none

/-- The `\d{3,4}\)` portion of the triplet pattern, anchored at the head:
greedily four digits when followed by the closing parenthesis, else
three; returns the group and the list after the parenthesis. -/
def matchDigitsClose (r : List Char) : Option (List Char × List Char) :=
  match r with
  | w :: x :: y :: z :: r2 =>
    if isDigitA w && isDigitA x && isDigitA y then
      if isDigitA z then
        match r2 with
        | ')' :: r3 => some ([w, x, y, z], r3)
        | _ => none
      else if z = ')' then some ([w, x, y], r2)
      else none
    else none
  | _ => none

/-- Match of the full code-triplet pattern anchored at the head of `l`;
returns the three groups and the matched length. -/
def matchTripletAt (l : List Char) : Option (List Char × List Char × List Char × Nat) :=
  match l with
  | '(' :: a :: b :: ',' :: r1 =>
    if isUpperA a && isUpperA b then
      let r2 := r1.dropWhile isWsA
      match matchLettersComma r2 with
      | some (g2, r3) =>
        let r4 := r3.dropWhile isWsA
        match matchDigitsClose r4 with
        | some (g3, r5) => some ([a, b], g2, g3, l.length - r5.length)
        | none => none
      | none => none
    else none
  | _ => none

/-- `re.finditer` of the code-triplet pattern: non-overlapping leftmost
matches, scanning resuming after each match.  Fuel is the length of the
list; every step consumes at least one character. -/
def findMatchesAux : Nat → Nat → List Char → List CodeMatch
  | 0, _, _ => []
  | _ + 1, _, [] => []
  | fuel + 1, pos, c :: cs =>
    match matchTripletAt (c :: cs) with
    | some (g1, g2, g3, n) =>
      ⟨pos, pos + n, g1, g2, g3⟩ :: findMatchesAux fuel (pos + n) ((c :: cs).drop n)
    | none => findMatchesAux fuel (pos + 1) cs

def findCodeMatches (l : List Char) : List CodeMatch := findMatchesAux l.length 0 l

example : findCodeMatches ("Sint Maarten (Dutch part) (SX, SXM, 534)".data)
    = [⟨26, 40, "SX".data, "SXM".data, "534".data⟩] := by decide
example : (findCodeMatches ("(AB, ABC, 123)".data)).length = 1 := by decide

/-- Python `name.endswith(sfx)`: the last `sfx.length` characters equal
`sfx` (false when `name` is shorter than `sfx`). -/
def pyEndsWith (l sfx : List Char) : Bool :=
  decide (l.drop (l.length - sfx.length) = sfx)

/-- The incomplete suffix `"Republic of"` of `fix_incomplete_name`. -/
def sfxRepublic : List Char := "Republic of".data

/-- The incomplete suffix `"Democratic Republic of the"`. -/
def sfxDemRepublic : List Char := "Democratic Republic of the".data

/-- The `,?\s*SUFFIX` tail of the repair pattern
`([\w\s]+,?\s*SUFFIX)`, anchored at the head of `t`: an optional comma,
a (greedy) whitespace run, then the literal suffix; returns the consumed
length.  (The optional comma and the whitespace run need no backtracking
because both suffixes start with a letter.) -/
def tailRepair (sfx : List Char) (t : List Char) : Option Nat :=
  let cut : List Char × Nat :=
    match t with
    | ',' :: r => (r, 1)
    | _ => (t, 0)
  let ws := cut.1.takeWhile isWsA
  if sfx.isPrefixOf (cut.1.drop ws.length) then
    some (cut.2 + ws.length + sfx.length)
  else none

/-- Backtracking of the greedy `[\w\s]+`: with `k + 1` the number of
word-or-space characters currently consumed, try the tail there and on
failure give one character back, down to a single consumed character;
returns the full matched length. -/
def repairK (sfx : List Char) (l : List Char) : Nat → Option Nat
  | 0 => none
  | k + 1 =>
    match tailRepair sfx (l.drop (k + 1)) with
    | some n => some (k + 1 + n)
    | none => repairK sfx l k

/-- Match of `([\w\s]+,?\s*SUFFIX)` anchored at the head of `l`;
returns the matched (= group) length. -/
def matchRepairAt (sfx : List Char) (l : List Char) : Option Nat :=
  repairK sfx l (l.takeWhile (fun c => isWordA c || isWsA c)).length

/-- `re.search` of the repair pattern: leftmost matching start position
wins; returns group 1, the matched substring itself. -/
def searchRepair (sfx : List Char) : List Char → Option (List Char)
  | [] => none
  | c :: cs =>
    match matchRepairAt sfx (c :: cs) with
    | some n => some ((c :: cs).take n)
    | none => searchRepair sfx cs

/-- The lazy `.*?\)` tail of the code-group pattern: the distance to the
first `')'`, provided no newline intervenes (`.` does not match a
newline); returns the consumed length including the `')'`. -/
def scanClose : List Char → Option Nat
  | [] => none
  | c :: cs =>
    if c = ')' then some 1
    else if c = '\n' then none
    else (scanClose cs).map (· + 1)

/-- Match of `\s*\([A-Z]{2}.*?\)` anchored at the head of `l`; returns
the matched length. -/
def matchParenCodeAt (l : List Char) : Option Nat :=
  let ws := l.takeWhile isWsA
  match l.drop ws.length with
  | '(' :: a :: b :: r =>
    if isUpperA a && isUpperA b then
      match scanClose r with
      | some n => some (ws.length + 3 + n)
      | none => none
    else none
  | _ => none

/-- `re.sub(r'\s*\([A-Z]{2}.*?\)', '', full_name)`: delete every
non-overlapping leftmost occurrence. -/
def removeParenAux : Nat → List Char → List Char
  | 0, l => l
  | _ + 1, [] => []
  | fuel + 1, c :: cs =>
    match matchParenCodeAt (c :: cs) with
    | some n => removeParenAux fuel ((c :: cs).drop n)
    | none => c :: removeParenAux fuel cs

def removeParenCodes (l : List Char) : List Char := removeParenAux l.length l

/-- The `for incomplete, pattern in patterns.items()` loop of
`fix_incomplete_name`: on a name equal to or ending in the suffix, search
the raw description; on a find return the found phrase with parenthesized
code groups removed and stripped, otherwise continue with the next
suffix. -/
def fixLoop (name desc : List Char) : List (List Char) → List Char
  | [] => name
  | sfx :: rest =>
    if name = sfx ∨ pyEndsWith name sfx = true then
      match searchRepair sfx desc with
      | some g => pyStripL (removeParenCodes g)
      | none => fixLoop name desc rest
    else fixLoop name desc rest

/-- Core of `fix_incomplete_name` on character lists. -/
def fixCore (name desc : List Char) : List Char :=
  if name = [] ∨ 25 < name.length then name
  else fixLoop name desc [sfxRepublic, sfxDemRepublic]

/-- `fix_incomplete_name(name, raw_description)`. -/
def fix_incomplete_name (name desc : String) : String :=
  String.mk (fixCore name.data desc.data)

example : fix_incomplete_name "Congo, Republic of" "Congo, Republic of the (CG, COG, 178)"
    = "Congo, Republic of" := by decide
example : fix_incomplete_name "Republic of" "Congo, Republic of (CG, COG, 178)"
    = "Congo, Republic of" := by decide
example : fix_incomplete_name "Sint Maarten (Dutch part)" "x" = "Sint Maarten (Dutch part)" := by decide

/-- A successor country entry, all four fields required. -/
structure Successor where
  name : String
  alpha2 : String
  alpha3 : String
  numeric : String
deriving DecidableEq, Repr

/-- The keyword removal
`re.sub(r'^(?:Divided into:|Split into:)\s*', '', raw, flags=re.IGNORECASE)`:
an anchored pattern, so at most the single occurrence at the start is
removed, together with the following whitespace. -/
def stripDividedKeyword (l : List Char) : List Char :=
  if (l.take 13).map toLowerA = "divided into:".data then
    (l.drop 13).dropWhile isWsA
  else if (l.take 11).map toLowerA = "split into:".data then
    (l.drop 11).dropWhile isWsA
  else l

/-- The candidate-name pipeline of the successor loop: the substring of
the description between code-point indices `pe` (end of the previous
occurrence, or 0) and `ms` (start of the current occurrence), stripped,
keyword-stripped, note-stripped, stripped again and run through the name
cleaner. -/
def successorNameAt (chars : List Char) (pe ms : Nat) : List Char :=
  let raw0 := (chars.drop pe).take (ms - pe)
  cleanCore (pyStripL (removeNotes (stripDividedKeyword (pyStripL raw0))))

/-- The `for i, code_match in enumerate(code_matches)` loop of
`parse_successors`: `prevEnd` is `code_matches[i-1].end()` (0 for the
first iteration); candidates whose cleaned name is empty or shorter than
3 characters are skipped. -/
def successorsLoop (chars desc : List Char) (prevEnd : Nat) :
    List CodeMatch → List Successor
  | [] => []
  | m :: rest =>
    let nm := successorNameAt chars prevEnd m.mstart
    if nm = [] ∨ nm.length < 3 then successorsLoop chars desc m.mend rest
    else
      { name := String.mk (fixCore nm desc), alpha2 := String.mk m.g1,
        alpha3 := String.mk m.g2, numeric := String.mk m.g3 }
        :: successorsLoop chars desc m.mend rest

/-- `parse_successors(successor_str, raw_desc)`: `none` models a `NaN`
first argument. -/
def parse_successors (successor_str : Option String) (raw_desc : String) :
    List Successor :=
  match successor_str with
  | none => []
  | some s =>
    if s = "" then []
    else successorsLoop s.data raw_desc.data 0 (findCodeMatches s.data)

example :
    parse_successors (some "Sint Maarten (Dutch part) (SX, SXM, 534)")
      "Sint Maarten (Dutch part) (SX, SXM, 534)"
    = [{ name := "Sint Maarten (Dutch part)", alpha2 := "SX", alpha3 := "SXM",
         numeric := "534" }] := by decide

example : parse_successors (some "(AB, ABC, 123)") "(AB, ABC, 123)" = [] := by decide

example :
    parse_successors
      (some "Divided into: Curaçao (CW, CUW, 531), Sint Maarten (Dutch part) (SX, SXM, 534)")
      "Divided into: Curaçao (CW, CUW, 531), Sint Maarten (Dutch part) (SX, SXM, 534)"
    = [{ name := "Curaçao", alpha2 := "CW", alpha3 := "CUW", numeric := "531" },
       { name := ", Sint Maarten (Dutch part)", alpha2 := "SX", alpha3 := "SXM",
         numeric := "534" }] := by decide

/-- A raw table row, one cell per column used by `process_record`;
`none` models a `NaN` cell (a missing column behaves as `some ""`). -/
structure RawRow where
  former_country_name : Option String
  former_codes : Option String
  period_of_validity : Option String
  new_country_names : Option String
  iso_3166_3_code : Option String
deriving DecidableEq, Repr

/-- Python `str(cell)`: the string itself, or the text `"nan"` for a
`NaN` float cell. -/
def pyStr : Option String → String
  | none => "nan"
  | some s => s

/-- The `former_country` object of a clean record. -/
structure FormerCountry where
  name : String
  alpha2 : Option String
  alpha3 : Option String
  numeric : Option String
  iso_3166_3_alpha4 : Option String
deriving DecidableEq, Repr

/-- The `transition` object of a clean record. -/
structure Transition where
  type : String
  successors : List Successor
deriving DecidableEq, Repr

/-- One clean record, as assembled by `process_record`. -/
structure CleanRecord where
  former_country : FormerCountry
  validity_period : Validity
  transition : Transition
deriving DecidableEq, Repr

/-- `process_record(row)`. -/
def process_record (row : RawRow) : CleanRecord :=
  let former_codes := parse_former_codes row.former_codes
  let validity := parse_validity_period row.period_of_validity
  let raw_desc := pyStr row.new_country_names
  let successors := parse_successors (some raw_desc) raw_desc
  let transition_type := determine_transition_type (some raw_desc)
  let former_name := clean_country_name row.former_country_name
  let iso0 := String.mk (pyStripL (pyStr row.iso_3166_3_code).data)
  { former_country :=
      { name := former_name, alpha2 := former_codes.alpha2,
        alpha3 := former_codes.alpha3, numeric := former_codes.numeric,
        iso_3166_3_alpha4 := if iso0 = "nan" then none else some iso0 },
    validity_period := validity,
    transition := { type := transition_type, successors := successors } }

/-- The `metadata` object of the output document. -/
structure Metadata where
  title : String
  description : String
  source : String
  standard : String
  version : String
  total_records : Nat
  last_updated : String
deriving DecidableEq, Repr

/-- The output document. -/
structure Dataset where
  metadata : Metadata
  countries : List CleanRecord
deriving DecidableEq, Repr

/-- The `for idx, row in df.iterrows()` loop of `scrape_and_clean` with
its `try`/`except` body.  Row normalization is passed in as a function
`f` into the exception monad, so that an arbitrary per-row failure can
be modelled; `idx` is the position of the first row of the list.
Returns the pair (clean records, error messages), each in source
order. -/
def processRowsAux (f : Nat → RawRow → Except String CleanRecord) :
    Nat → List RawRow → List CleanRecord × List String
  | _, [] => ([], [])
  | idx, r :: rest =>
    let pr := processRowsAux f (idx + 1) rest
    match f idx r with
    | Except.ok rec => (rec :: pr.1, pr.2)
    | Except.error e => (pr.1, ("Row " ++ toString idx ++ ": " ++ e) :: pr.2)

def processRows (f : Nat → RawRow → Except String CleanRecord)
    (rows : List RawRow) : List CleanRecord × List String :=
  processRowsAux f 0 rows

/-- The dataset construction of `scrape_and_clean`; `version` and
`last_updated` stand for the two `datetime.now()` strings. -/
def scrape_and_clean (f : Nat → RawRow → Except String CleanRecord)
    (rows : List RawRow) (version last_updated : String) : Dataset :=
  let pr := processRows f rows
  { metadata :=
      { title := "ISO 3166-3: Formerly Used Country Codes",
        description := "Codes for country names which have been deleted from ISO 3166-1 since its first publication in 1974",
        source := "https://en.wikipedia.org/wiki/ISO_3166-3",
        standard := "ISO 3166-3",
        version := version,
        total_records := pr.1.length,
        last_updated := last_updated },
    countries := pr.1 }

/-- The row-normalization the source actually runs inside the `try`:
`process_record`, which never fails in the embedding. -/
def processOk : Nat → RawRow → Except String CleanRecord :=
  fun _ r => Except.ok (process_record r)

/-!
Spec-side definitions.  Each of the following is written from the words
of a claim of the specification, to be compared with the corresponding
definition above, which is written from the source.
-/

/-- Spec side of claim C1 (amended): one successor per occurrence of the
code-triplet pattern, in document order, the name taken from the interval
between the end of the previous occurrence (or the start of the string)
and the start of the current occurrence; occurrences whose processed name
is shorter than 3 characters yield no successor. -/
def successorsSpec (s d : String) : List Successor :=
  let chars := s.data
  let ms := findCodeMatches chars
  (List.zip (0 :: ms.map CodeMatch.mend) ms).filterMap (fun pm =>
    let nm := successorNameAt chars pm.1 pm.2.mstart
    if nm.length < 3 then none
    else some
      { name := String.mk (fixCore nm d.data), alpha2 := String.mk pm.2.g1,
        alpha3 := String.mk pm.2.g2, numeric := String.mk pm.2.g3 })

/-- Spec side of claim C2: if the name exactly equals or ends with one of
the two listed suffixes and is at most 25 characters long, search the
original description for a longer phrase ending in that suffix and on a
find replace the name with that phrase, trailing parenthesized code
groups stripped; otherwise (no find, longer than 25 characters, or no
listed suffix) return the name unchanged. -/
def fixSpecSide (name desc : List Char) : List Char :=
  if (name = sfxRepublic ∨ pyEndsWith name sfxRepublic = true)
      ∧ name.length ≤ 25 then
    match searchRepair sfxRepublic desc with
    | some g => pyStripL (removeParenCodes g)
    | none => name
  else if (name = sfxDemRepublic ∨ pyEndsWith name sfxDemRepublic = true)
      ∧ name.length ≤ 25 then
    match searchRepair sfxDemRepublic desc with
    | some g => pyStripL (removeParenCodes g)
    | none => name
  else name

/-- Spec side of claim C3: the value of a slot is the last (rightmost)
token matching that slot's pattern, if any. -/
def lastMatching (p : List Char → Bool) (ts : List (List Char)) : Option String :=
  (ts.reverse.find? p).map String.mk

/-- Spec side of claim C4: the first (leftmost) start position at which
the period pattern matches is the only one used. -/
def specPeriodFind (l : List Char) : Option (Nat × Nat) :=
  ((List.range l.length).find? (fun i => (matchPeriodAt (l.drop i)).isSome)).bind
    (fun i => matchPeriodAt (l.drop i))

/-- Spec side of claim C4, full parser: same guards as the source, with
the leftmost-position search in place of the left-to-right scan. -/
def specParsePeriod : Option String → Validity
  | none => ⟨none, none⟩
  | some s =>
    if s = "" then ⟨none, none⟩
    else
      match specPeriodFind (pyStripL s.data) with
      | some (a, b) => ⟨some a, some b⟩
      | none => ⟨none, none⟩

/-- Case-insensitive anchored match: `needle` matches the front of `t`
when the characters agree after lowering. -/
def caselessPrefixMatch : List Char → List Char → Bool
  | [], _ => true
  | _ :: _, [] => false
  | a :: ns, b :: ts =>
    decide (toLowerA a = toLowerA b) && caselessPrefixMatch ns ts

/-- Spec side of claim C7: case-insensitive substring containment. -/
def caselessContains (hay needle : List Char) : Bool :=
  hay.tails.any (fun t => caselessPrefixMatch needle t)

/-- Spec side of claim C7, full classifier: case-insensitive substring
checks in the claimed fixed priority order. -/
def classifySpec : Option String → String
  | none => "other"
  | some s =>
    if s = "" then "other"
    else if caselessContains s.data ("merged into".data) then "merged"
    else if caselessContains s.data ("name changed".data) then "name_changed"
    else if caselessContains s.data ("divided into".data)
        || caselessContains s.data ("split into".data) then "divided"
    else "other"


/-!
Helper lemmas.
-/

theorem pyEndsWith_le {l sfx : List Char} (h : pyEndsWith l sfx = true) :
    sfx.length ≤ l.length := by
  simp only [pyEndsWith, decide_eq_true_eq] at h
  have hlen := congrArg List.length h
  simp only [List.length_drop] at hlen
  omega

theorem fixCore_eq_spec (name desc : List Char) :
    fixCore name desc = fixSpecSide name desc := by
  by_cases h0 : name = []
  · subst h0
    have e1 : pyEndsWith [] sfxRepublic = false := by decide
    have e2 : pyEndsWith [] sfxDemRepublic = false := by decide
    have n1 : ¬(([] : List Char) = sfxRepublic) := by decide
    have n2 : ¬(([] : List Char) = sfxDemRepublic) := by decide
    simp [fixCore, fixSpecSide, e1, e2, n1, n2]
  · by_cases h1 : 25 < name.length
    · have hc : fixCore name desc = name := by
        unfold fixCore
        rw [if_pos (Or.inr h1)]
      have hn : ¬(name.length ≤ 25) := by omega
      rw [hc]
      unfold fixSpecSide
      rw [if_neg (by tauto), if_neg (by tauto)]
    · have hlen : name.length ≤ 25 := by omega
      have hcore : fixCore name desc = fixLoop name desc [sfxRepublic, sfxDemRepublic] := by
        unfold fixCore
        rw [if_neg (by tauto)]
      rw [hcore]
      have hdead : ¬(name = sfxDemRepublic ∨ pyEndsWith name sfxDemRepublic = true) := by
        rintro (h | h)
        · rw [h] at hlen
          exact absurd hlen (by decide)
        · have h26 : sfxDemRepublic.length ≤ name.length := pyEndsWith_le h
          have : sfxDemRepublic.length = 26 := by decide
          omega
      by_cases hc1 : name = sfxRepublic ∨ pyEndsWith name sfxRepublic = true
      · rw [fixLoop, if_pos hc1]
        cases hs : searchRepair sfxRepublic desc with
        | some g =>
          unfold fixSpecSide
          rw [if_pos ⟨hc1, hlen⟩, hs]
        | none =>
          rw [fixLoop, if_neg hdead, fixLoop]
          unfold fixSpecSide
          rw [if_pos ⟨hc1, hlen⟩, hs]
      · rw [fixLoop, if_neg hc1, fixLoop, if_neg hdead, fixLoop]
        unfold fixSpecSide
        rw [if_neg (by tauto), if_neg (by tauto)]

theorem tokenIsAlpha2_len {t : List Char} (h : tokenIsAlpha2 t = true) :
    t.length = 2 := by
  simp only [tokenIsAlpha2, Bool.and_eq_true, decide_eq_true_eq] at h
  exact h.1

theorem tokenIsAlpha3_len {t : List Char} (h : tokenIsAlpha3 t = true) :
    t.length = 3 := by
  simp only [tokenIsAlpha3, Bool.and_eq_true, decide_eq_true_eq] at h
  exact h.1

theorem tokenIsNumeric_len {t : List Char} (h : tokenIsNumeric t = true) :
    t.length = 3 := by
  simp only [tokenIsNumeric, Bool.and_eq_true, decide_eq_true_eq] at h
  exact h.1

theorem not_upperA_and_digitA (c : Char) : ¬(isUpperA c = true ∧ isDigitA c = true) := by
  simp only [isUpperA, isDigitA, Bool.and_eq_true, decide_eq_true_eq]
  omega

theorem tokenA2_not_A3 {t : List Char} (h : tokenIsAlpha2 t = true) :
    tokenIsAlpha3 t = false := by
  cases h3 : tokenIsAlpha3 t
  · rfl
  · have := tokenIsAlpha2_len h
    have := tokenIsAlpha3_len h3
    omega

theorem tokenA2_not_numeric {t : List Char} (h : tokenIsAlpha2 t = true) :
    tokenIsNumeric t = false := by
  cases h3 : tokenIsNumeric t
  · rfl
  · have := tokenIsAlpha2_len h
    have := tokenIsNumeric_len h3
    omega

theorem tokenA3_not_numeric {t : List Char} (h : tokenIsAlpha3 t = true) :
    tokenIsNumeric t = false := by
  cases hn : tokenIsNumeric t
  · rfl
  · exfalso
    have h3 := tokenIsAlpha3_len h
    cases t with
    | nil => simp at h3
    | cons c cs =>
      simp only [tokenIsAlpha3, tokenIsNumeric, List.all_cons, Bool.and_eq_true,
        decide_eq_true_eq] at h hn
      exact not_upperA_and_digitA c ⟨h.2.1, hn.2.1⟩

theorem codeStep_alpha2 (r : FormerCodes) (t : List Char) :
    (codeStep r t).alpha2 = if tokenIsAlpha2 t then some (String.mk t) else r.alpha2 := by
  unfold codeStep
  split_ifs <;> rfl

theorem codeStep_alpha3 (r : FormerCodes) (t : List Char) :
    (codeStep r t).alpha3 = if tokenIsAlpha3 t then some (String.mk t) else r.alpha3 := by
  unfold codeStep
  by_cases h2 : tokenIsAlpha2 t = true
  · have h3 := tokenA2_not_A3 h2
    simp [h2, h3]
  · simp only [h2, if_false, Bool.false_eq_true]
    split_ifs <;> rfl

theorem codeStep_numeric (r : FormerCodes) (t : List Char) :
    (codeStep r t).numeric = if tokenIsNumeric t then some (String.mk t) else r.numeric := by
  unfold codeStep
  by_cases h2 : tokenIsAlpha2 t = true
  · have hn := tokenA2_not_numeric h2
    simp [h2, hn]
  · by_cases h3 : tokenIsAlpha3 t = true
    · have hn := tokenA3_not_numeric h3
      simp [h2, h3, hn]
    · simp only [h2, h3, if_false, Bool.false_eq_true]
      split_ifs <;> rfl

theorem foldl_codeStep_slot (proj : FormerCodes → Option String) (p : List Char → Bool)
    (hstep : ∀ r t, proj (codeStep r t) = if p t then some (String.mk t) else proj r) :
    ∀ (ts : List (List Char)) (init : FormerCodes),
      proj (ts.foldl codeStep init) =
        match ts.reverse.find? p with
        | some t => some (String.mk t)
        | none => proj init := by
  intro ts
  induction ts with
  | nil => intro init; rfl
  | cons t ts ih =>
    intro init
    rw [List.foldl_cons, ih, List.reverse_cons, List.find?_append]
    cases hf : ts.reverse.find? p with
    | some u => rfl
    | none =>
      rw [hstep]
      by_cases h : p t = true <;> simp [h, List.find?]

/-- C3: for every input, `parse_former_codes` splits on commas, trims
each token, assigns 2-uppercase tokens to `alpha2`, 3-uppercase tokens to
`alpha3` and 3-digit tokens to `numeric`, ignoring all other tokens, with
the last (rightmost) matching token winning each slot; in particular
`"US, USA, 840"` yields US/USA/840 and `"USA, US"` yields both `alpha2`
and `alpha3` present. -/
theorem c3_former_codes_last_wins :
    (∀ s : String,
      (parse_former_codes (some s)).alpha2 = lastMatching tokenIsAlpha2 (codeTokens s)
      ∧ (parse_former_codes (some s)).alpha3 = lastMatching tokenIsAlpha3 (codeTokens s)
      ∧ (parse_former_codes (some s)).numeric = lastMatching tokenIsNumeric (codeTokens s))
    ∧ parse_former_codes (some "US, USA, 840") = ⟨some "US", some "USA", some "840"⟩
    ∧ parse_former_codes (some "USA, US") = ⟨some "US", some "USA", none⟩ := by
  refine ⟨fun s => ?_, by decide, by decide⟩
  by_cases hs : s = ""
  · subst hs
    refine ⟨by decide, by decide, by decide⟩
  · have hp : parse_former_codes (some s) = (codeTokens s).foldl codeStep ⟨none, none, none⟩ := by
      simp [parse_former_codes, hs]
    rw [hp]
    refine ⟨?_, ?_, ?_⟩
    · rw [foldl_codeStep_slot (fun r => r.alpha2) tokenIsAlpha2 codeStep_alpha2]
      cases hf : (codeTokens s).reverse.find? tokenIsAlpha2 <;> simp [lastMatching, hf]
    · rw [foldl_codeStep_slot (fun r => r.alpha3) tokenIsAlpha3 codeStep_alpha3]
      cases hf : (codeTokens s).reverse.find? tokenIsAlpha3 <;> simp [lastMatching, hf]
    · rw [foldl_codeStep_slot (fun r => r.numeric) tokenIsNumeric codeStep_numeric]
      cases hf : (codeTokens s).reverse.find? tokenIsNumeric <;> simp [lastMatching, hf]

/-- C2: the incomplete-name repair of `fix_incomplete_name` behaves
exactly as specified: a name equal to or ending in a listed suffix and of
length at most 25 is replaced by the phrase of word characters and spaces
(optionally with a comma) ending in that suffix found in the original
description, with trailing parenthesized code groups stripped; otherwise
(name too long, no listed suffix, or no find) the name is unchanged. -/
theorem c2_fix_incomplete_name_spec (name desc : String) :
    fix_incomplete_name name desc = String.mk (fixSpecSide name.data desc.data) := by
  unfold fix_incomplete_name
  rw [fixCore_eq_spec]

theorem searchPeriod_eq_spec : ∀ l : List Char, searchPeriod l = specPeriodFind l := by
  intro l
  induction l with
  | nil => rfl
  | cons c cs ih =>
    rw [searchPeriod]
    cases hm : matchPeriodAt (c :: cs) with
    | some p =>
      unfold specPeriodFind
      rw [List.length_cons, List.range_succ_eq_map]
      rw [List.find?_cons_of_pos _ (by simp [hm])]
      simp [hm]
    | none =>
      rw [ih]
      unfold specPeriodFind
      rw [List.length_cons, List.range_succ_eq_map]
      rw [List.find?_cons_of_neg _ (by simp [hm])]
      rw [List.find?_map]
      simp only [Function.comp_def, List.drop_succ_cons]
      cases hr : cs.length |> List.range |>.find? (fun i => (matchPeriodAt (cs.drop i)).isSome) with
      | some j => simp [hr]
      | none => simp [hr]

/-- C4: `parse_validity_period` uses only the first (leftmost) occurrence
of the four-digits, dash, four-digits pattern, start and end are both
present or both absent, it performs no validation that end is at least
start (witness `"1974–1965"`), and the spec examples hold. -/
theorem c4_validity_period_first_match :
    (∀ o : Option String, parse_validity_period o = specParsePeriod o)
    ∧ (∀ o : Option String,
        (parse_validity_period o).start.isSome = (parse_validity_period o).end_.isSome)
    ∧ parse_validity_period (some "1965–1974") = ⟨some 1965, some 1974⟩
    ∧ parse_validity_period (some "no date") = ⟨none, none⟩
    ∧ parse_validity_period (some "1974–1965") = ⟨some 1974, some 1965⟩ := by
  refine ⟨?_, ?_, by decide, by decide, by decide⟩
  · intro o
    cases o with
    | none => rfl
    | some s => simp only [parse_validity_period, specParsePeriod, searchPeriod_eq_spec]
  · intro o
    cases o with
    | none => rfl
    | some s =>
      simp only [parse_validity_period]
      split
      · rfl
      · split <;> rfl

theorem caselessPrefix_eq : ∀ n t : List Char,
    caselessPrefixMatch n t = (n.map toLowerA).isPrefixOf (t.map toLowerA) := by
  intro n
  induction n with
  | nil => intro t; cases t <;> rfl
  | cons a ns ih =>
    intro t
    cases t with
    | nil => rfl
    | cons b ts =>
      simp only [caselessPrefixMatch, List.map_cons, List.isPrefixOf]
      rw [ih]
      by_cases h : toLowerA a = toLowerA b <;> simp [h]

theorem pyContains_lower_eq (h n : List Char) (hn : n.map toLowerA = n) :
    pyContains (h.map toLowerA) n = caselessContains h n := by
  unfold pyContains caselessContains
  rw [List.map_tails, List.any_map]
  refine congrArg _ ?_
  funext t
  simp only [Function.comp_apply]
  rw [caselessPrefix_eq, hn]

/-- C7: `determine_transition_type` performs case-insensitive substring
checks in the fixed priority order merged, name_changed, divided, other;
absent or blank input yields other; and the spec examples hold. -/
theorem c7_classify_priority :
    (∀ o : Option String, determine_transition_type o = classifySpec o)
    ∧ determine_transition_type none = "other"
    ∧ determine_transition_type (some "") = "other"
    ∧ determine_transition_type (some "Merged into Tanzania") = "merged"
    ∧ determine_transition_type (some "Republic renamed") = "other" := by
  refine ⟨?_, rfl, by decide, by decide, by decide⟩
  intro o
  cases o with
  | none => rfl
  | some s =>
    simp only [determine_transition_type, classifySpec]
    rw [pyContains_lower_eq s.data ("merged into".data) (by decide),
      pyContains_lower_eq s.data ("name changed".data) (by decide),
      pyContains_lower_eq s.data ("divided into".data) (by decide),
      pyContains_lower_eq s.data ("split into".data) (by decide)]

theorem successorsLoop_eq_zip (chars desc : List Char) :
    ∀ (ms : List CodeMatch) (pe : Nat),
      successorsLoop chars desc pe ms =
        (List.zip (pe :: ms.map CodeMatch.mend) ms).filterMap (fun pm =>
          let nm := successorNameAt chars pm.1 pm.2.mstart
          if nm.length < 3 then none
          else some
            { name := String.mk (fixCore nm desc), alpha2 := String.mk pm.2.g1,
              alpha3 := String.mk pm.2.g2, numeric := String.mk pm.2.g3 }) := by
  intro ms
  induction ms with
  | nil => intro pe; rfl
  | cons m rest ih =>
    intro pe
    simp only [List.map_cons, List.zip_cons_cons, List.filterMap_cons]
    by_cases hc : (successorNameAt chars pe m.mstart).length < 3
    · have hc' : successorNameAt chars pe m.mstart = []
          ∨ (successorNameAt chars pe m.mstart).length < 3 := Or.inr hc
      simp only [successorsLoop, if_pos hc', if_pos hc]
      exact ih m.mend
    · have hne : ¬(successorNameAt chars pe m.mstart = []
          ∨ (successorNameAt chars pe m.mstart).length < 3) := by
        rintro (h | h)
        · rw [h] at hc
          exact hc (by simp)
        · exact hc h
      simp only [successorsLoop, if_neg hne, if_neg hc]
      rw [ih m.mend]

/-- C1 (amended): `parse_successors` emits one successor per occurrence
of the code-triplet pattern whose candidate name — the substring between
the end of the previous occurrence (or the start of the string) and the
start of the current occurrence, keyword-stripped, note-stripped and
cleaned — is at least 3 characters long, in document order; occurrences
with shorter (or empty) names yield no successor.  The spec examples
hold: the Sint Maarten description yields exactly one successor with its
parenthesized name intact, and a string with zero occurrences yields the
empty sequence. -/
theorem c1_successors_per_occurrence :
    (∀ s d : String, parse_successors (some s) d = successorsSpec s d)
    ∧ parse_successors (some "Sint Maarten (Dutch part) (SX, SXM, 534)")
        "Sint Maarten (Dutch part) (SX, SXM, 534)"
      = [{ name := "Sint Maarten (Dutch part)", alpha2 := "SX", alpha3 := "SXM",
           numeric := "534" }]
    ∧ parse_successors (some "") "" = [] := by
  refine ⟨?_, by decide, by decide⟩
  intro s d
  by_cases hs : s = ""
  · subst hs; rfl
  · simp only [parse_successors, if_neg hs]
    exact successorsLoop_eq_zip s.data d.data (findCodeMatches s.data) 0

/-- C1 counterexample: the claim as stated says one successor per
occurrence of the code-triplet pattern; on `"(AB, ABC, 123)"` there is
exactly one occurrence, yet `parse_successors` emits no successor,
because the candidate name (the empty substring before the occurrence)
is discarded. -/
theorem c1_counterexample :
    parse_successors (some "(AB, ABC, 123)") "(AB, ABC, 123)" = []
    ∧ (findCodeMatches ("(AB, ABC, 123)".data)).length = 1 :=
  ⟨by decide, by decide⟩

theorem stripActionPhrases_join : ∀ (ps : List (List Char)) (l : List Char),
    ∃ qs : List (List Char),
      List.Sublist qs ps ∧ l = qs.flatten ++ stripActionPhrases ps l := by
  intro ps
  induction ps with
  | nil =>
    intro l
    exact ⟨[], List.Sublist.refl _, by simp [stripActionPhrases]⟩
  | cons p ps ih =>
    intro l
    by_cases hp : p.isPrefixOf l = true
    · have hpre : p <+: l := List.isPrefixOf_iff_prefix.mp hp
      obtain ⟨t, ht⟩ := hpre
      have hdrop : l.drop p.length = t := by
        rw [← ht, List.drop_left]
      obtain ⟨qs, hsub, heq⟩ := ih t
      refine ⟨p :: qs, hsub.cons₂ p, ?_⟩
      rw [List.flatten_cons, List.append_assoc]
      simp only [stripActionPhrases, if_pos hp, hdrop]
      rw [← heq, ht]
    · obtain ⟨qs, hsub, heq⟩ := ih l
      refine ⟨qs, hsub.cons p, ?_⟩
      simp only [stripActionPhrases, if_neg hp]
      exact heq

/-- C5 (amended): the action-phrase stage of `clean_country_name` tries
each of the five listed phrases once, in fixed list order, and strips each
matching one as a prefix of the current value of the name; hence the
removed material is the concatenation of a subsequence of the phrase
list, and more than one action phrase can be removed in a single call. -/
theorem c5_prefix_strip_order :
    (∀ l : List Char,
      cleanCore l = if l = [] then []
        else collapseWs (stripActionPhrases actionPhrases (removeNotes l)))
    ∧ (∀ l : List Char, ∃ qs : List (List Char), List.Sublist qs actionPhrases
        ∧ l = qs.flatten ++ stripActionPhrases actionPhrases l) :=
  ⟨fun _ => rfl, fun l => stripActionPhrases_join actionPhrases l⟩

/-- C5 counterexample: the claim says at most one action phrase is
removed per call, so on the input below the result would keep the second
phrase; the code removes both `"Merged into "` and `"Name changed to "`. -/
theorem c5_counterexample :
    clean_country_name (some "Merged into Name changed to Zaire") = "Zaire"
    ∧ "Zaire" ≠ "Name changed to Zaire" :=
  ⟨by decide, by decide⟩

/-- C6: the code contradicts the claimed property.  On `"[note  1]"` (two
spaces) the note pattern does not match, whitespace collapsing then turns
the input into `"[note 1]"`, and `clean_country_name` returns a string
that still contains an annotation marker. -/
theorem c6_note_marker_escape :
    clean_country_name (some "[note  1]") = "[note 1]"
    ∧ hasNoteMarker ("[note 1]".data) = true :=
  ⟨by decide, by decide⟩

theorem processRowsAux_eq (f : Nat → RawRow → Except String CleanRecord) :
    ∀ (rows : List RawRow) (i : Nat),
      processRowsAux f i rows =
        ((rows.enumFrom i).filterMap (fun p => (f p.1 p.2).toOption),
         (rows.enumFrom i).filterMap (fun p =>
           match f p.1 p.2 with
           | Except.error e => some ("Row " ++ toString p.1 ++ ": " ++ e)
           | Except.ok _ => none)) := by
  intro rows
  induction rows with
  | nil => intro i; rfl
  | cons r rest ih =>
    intro i
    simp only [processRowsAux, List.enumFrom_cons, List.filterMap_cons, ih]
    cases f i r with
    | ok rec => simp [Except.toOption]
    | error e => simp [Except.toOption]

/-- C8: for any per-row normalization outcome (modelled by `f` valued in
the exception monad), the loop of `scrape_and_clean` catches each row's
failure, records it with the row's position, excludes the row, and keeps
processing: the clean records are exactly the successful rows in source
order, and the error list is exactly the failed rows with their
positions, in source order; the loop itself always returns. -/
theorem c8_row_errors_isolated :
    ∀ (f : Nat → RawRow → Except String CleanRecord) (rows : List RawRow),
      (processRows f rows).1 = rows.enum.filterMap (fun p => (f p.1 p.2).toOption)
      ∧ (processRows f rows).2 = rows.enum.filterMap (fun p =>
          match f p.1 p.2 with
          | Except.error e => some ("Row " ++ toString p.1 ++ ": " ++ e)
          | Except.ok _ => none) := by
  intro f rows
  unfold processRows
  rw [processRowsAux_eq f rows 0]
  exact ⟨rfl, rfl⟩

theorem processRowsAux_ok_map : ∀ (rows : List RawRow) (i : Nat),
    (processRowsAux processOk i rows).1 = rows.map process_record := by
  intro rows
  induction rows with
  | nil => intro i; rfl
  | cons r rest ih =>
    intro i
    simp only [processRowsAux, processOk, List.map_cons]
    rw [ih]

/-- C9: the countries array and the total-records count produced by
`scrape_and_clean` are a deterministic function of the input rows alone:
two runs on equal rows with different version / last-updated timestamps
agree on both, and the countries array is exactly the per-row
normalization mapped over the rows. -/
theorem c9_normalization_deterministic :
    ∀ (rows : List RawRow) (v1 u1 v2 u2 : String),
      (scrape_and_clean processOk rows v1 u1).countries
        = (scrape_and_clean processOk rows v2 u2).countries
      ∧ (scrape_and_clean processOk rows v1 u1).metadata.total_records
        = (scrape_and_clean processOk rows v2 u2).metadata.total_records
      ∧ (scrape_and_clean processOk rows v1 u1).countries = rows.map process_record := by
  intro rows v1 u1 v2 u2
  refine ⟨rfl, rfl, ?_⟩
  exact processRowsAux_ok_map rows 0

/-- C10: in every dataset the pipeline emits — for any per-row outcome,
including runs in which rows fail and are excluded — the metadata field
`total_records` equals the length of the countries sequence. -/
theorem c10_total_records_length :
    ∀ (f : Nat → RawRow → Except String CleanRecord) (rows : List RawRow)
      (v u : String),
      (scrape_and_clean f rows v u).metadata.total_records
        = (scrape_and_clean f rows v u).countries.length := by
  intro f rows v u
  rfl
